import Mathlib

/-!
# A shallow embedding of the mgo/txn change-log watcher

This file models the `watcher` package of the repository: the `Watcher`
state (subscription table, revision registry, the two event queues and
`lastId`), the request handler `handle`, the change-log scan `sync`, and
the event delivery loop `flush`.  Go maps are modelled as association
lists together with Go's zero-value read semantics; Go channels are
modelled as natural-number identifiers compared for equality; a `panic`
is modelled as the `none` result of an `Option`-valued function.
-/

namespace StateWatcher

/-- A channel identifier.  Go compares channels by identity; we model a
`chan<- Change` value as an opaque `Nat` tag. -/
abbrev Chan := Nat

/-- `watchKey`: the collection name and the document id; the id is `none`
when watching the whole collection. -/
structure WatchKey where
  c : String
  id : Option Int
deriving DecidableEq

/-- `watchInfo`: an observer channel plus its last known revno. -/
structure WatchInfo where
  ch : Chan
  revno : Int
deriving DecidableEq

/-- `event`: a pending delivery.  The channel is `none` once the event has
been tombstoned by `reqUnwatch`. -/
structure Event where
  ch : Option Chan
  key : WatchKey
  revno : Int
deriving DecidableEq

/-- `Change`: the value sent to observer channels. -/
structure Change where
  C : String
  Id : Option Int
  Revno : Int
deriving DecidableEq

/-- A revno value found in the `r` array of a change-log entry: either an
`int64`, or a value of any other type (which fails the type assertion
`r[i].(int64)` in the source). -/
inductive RVal where
  | int64 : Int → RVal
  | other : RVal
deriving DecidableEq

/-- The value of one top-level field of a change-log entry: either an
opaque id value (as found under `_id`) or a sub-document carrying the
`d` (document ids) and `r` (revnos) arrays.  Document ids are modelled
as opaque integers. -/
inductive FieldVal where
  | idv : Int → FieldVal
  | coll : List Int → List RVal → FieldVal
deriving DecidableEq

/-- One named top-level field of a change-log entry (`bson.DocElem`). -/
structure EntryField where
  name : String
  val : FieldVal
deriving DecidableEq

/-- A change-log entry is an ordered document (`bson.D`): a list of named
fields, the first of which is expected to be `_id`. -/
abbrev LogEntry := List EntryField

/-- The watcher state: the subscription table `watches`, the revision
registry `current`, the two event queues and the last seen log id.
The `tomb`, the request channel, `syncDone` and the sync timer of the
source concern scheduling and shutdown and are outside this model. -/
structure Watcher where
  watches : List (WatchKey × List WatchInfo)
  current : List (WatchKey × Int)
  syncEvents : List Event
  requestEvents : List Event
  lastId : Option FieldVal
deriving DecidableEq

/-- Association-list lookup (a Go map read that also reports presence). -/
def alistGet? {α β : Type} [DecidableEq α] : List (α × β) → α → Option β
  | [], _ => none
  | (a, b) :: rest, key => if a = key then some b else alistGet? rest key

/-- Association-list update (a Go map write). -/
def alistSet {α β : Type} [DecidableEq α] : List (α × β) → α → β → List (α × β)
  | [], key, val => [(key, val)]
  | (a, b) :: rest, key, val =>
      if a = key then (key, val) :: rest else (a, b) :: alistSet rest key val

/-- The read `w.current[key]` as it appears in `sync`: a Go map read
yields the zero value `0` when the key is absent. -/
def Watcher.currentRead (w : Watcher) (k : WatchKey) : Int :=
  (alistGet? w.current k).getD 0

/-- The read `w.watches[key]`: a missing key yields a nil slice. -/
def Watcher.watchesGet (w : Watcher) (k : WatchKey) : List WatchInfo :=
  (alistGet? w.watches k).getD []

/-- The watcher state as built by `New` (before any sync): empty
subscription table, empty registry, empty queues. -/
def newWatcher : Watcher :=
  { watches := [], current := [], syncEvents := [], requestEvents := [], lastId := none }

/-- `initLastId`: seed `lastId` with the id of the most recent change-log
document (`none` when the log is empty). -/
def initLastId (w : Watcher) (newest : Option FieldVal) : Watcher :=
  { w with lastId := newest }

/-- A request delivered to the dispatcher.  `reqSync` only manipulates the
sync timer and the `syncDone` list, which are outside this model. -/
inductive Req where
  | watch : WatchKey → WatchInfo → Req
  | unwatch : WatchKey → Chan → Req
deriving DecidableEq

/-- `WatchCollection` submits a `reqWatch` with a nil document id and a
declared revno of 0. -/
def WatchCollection (collection : String) (ch : Chan) : Req :=
  .watch ⟨collection, none⟩ ⟨ch, 0⟩

/-- The `reqUnwatch` removal loop: the first record with the given channel
is overwritten by the last record and the slice is truncated by one. -/
def removeWatch : List WatchInfo → Chan → List WatchInfo
  | [], _ => []
  | x :: xs, ch =>
    if x.ch = ch then
      match xs with
      | [] => []
      | y :: ys => (y :: ys).getLastD x :: (y :: ys).dropLast
    else x :: removeWatch xs ch

/-- Tombstoning: clear the channel of every queued event that matches the
unwatched key and channel. -/
def tombstone (evs : List Event) (key : WatchKey) (ch : Chan) : List Event :=
  evs.map fun e => if e.key = key ∧ e.ch = some ch then { e with ch := none } else e

/-- `Watcher.handle` for `reqWatch` and `reqUnwatch` (source lines
261-292).  Returns `none` when the handler panics (the same channel is
attached twice to the same key). -/
def handle (w : Watcher) : Req → Option Watcher
  | .watch key info =>
    if (w.watchesGet key).any fun i => i.ch = info.ch then
      none
    else
      let p :=
        match alistGet? w.current key with
        | some revno =>
          if revno > info.revno ∨ (revno = -1 ∧ 0 ≤ info.revno) then
            ({ info with revno := revno },
              w.requestEvents ++ [(⟨some info.ch, key, revno⟩ : Event)])
          else (info, w.requestEvents)
        | none => (info, w.requestEvents)
      some { w with
        requestEvents := p.2,
        watches := alistSet w.watches key (w.watchesGet key ++ [p.1]) }
  | .unwatch key ch =>
    let infos := w.watchesGet key
    let watches' :=
      if infos.any (fun i => i.ch = ch) then alistSet w.watches key (removeWatch infos ch)
      else w.watches
    some { w with
      watches := watches',
      requestEvents := tombstone w.requestEvents key ch,
      syncEvents := tombstone w.syncEvents key ch }

/-- The per-document subscriber scan of `sync` (source lines 386-393):
every subscriber whose known revno is strictly older (or who believes the
document exists while the new revno is negative) has its revno advanced
in place and one event queued, in list order. -/
def notifyDoc : List WatchInfo → WatchKey → Int → List WatchInfo × List Event
  | [], _, _ => ([], [])
  | info :: rest, key, revno =>
    let p := notifyDoc rest key revno
    if revno > info.revno ∨ (revno < 0 ∧ 0 ≤ info.revno) then
      ({ info with revno := revno } :: p.1, (⟨some info.ch, key, revno⟩ : Event) :: p.2)
    else (info :: p.1, p.2)

/-- One (collection, doc-id, revno) triple of the inner scan of `sync`
(source lines 362-394), threading the per-pass `seen` set. -/
def processTriple (w : Watcher) (seen : List WatchKey) (cname : String)
    (did : Int) (rv : RVal) : Watcher × List WatchKey :=
  let key : WatchKey := ⟨cname, some did⟩
  if key ∈ seen then (w, seen)
  else
    let seen' := key :: seen
    match rv with
    | .other => (w, seen')
    | .int64 n =>
      let revno := if n < 0 then -1 else n
      if w.currentRead key = revno then (w, seen')
      else
        let w1 := { w with current := alistSet w.current key revno }
        let collEvs := (w1.watchesGet ⟨cname, none⟩).map
          fun info => (⟨some info.ch, key, revno⟩ : Event)
        let infos := w1.watchesGet key
        let q := notifyDoc infos key revno
        let watches' :=
          match alistGet? w1.watches key with
          | some _ => alistSet w1.watches key q.1
          | none => w1.watches
        ({ w1 with
            syncEvents := w1.syncEvents ++ collEvs ++ q.2,
            watches := watches' }, seen')

/-- The extraction of the `d` and `r` arrays from a collection field.  In
the source this scans the items of the `bson.D` sub-document; a value of
any other type fails the type assertion and leaves both arrays nil. -/
def extractDR : FieldVal → List Int × List RVal
  | .coll d r => (d, r)
  | .idv _ => ([], [])

/-- One collection field of an entry (source lines 346-395): validate the
`d`/`r` arrays, then process the document ids in reverse array order. -/
def processField (w : Watcher) (seen : List WatchKey) (f : EntryField) :
    Watcher × List WatchKey :=
  let p := extractDR f.val
  if p.1.length = 0 ∨ p.1.length ≠ p.2.length then (w, seen)
  else
    ((p.1.zip p.2).reverse).foldl
      (fun (q : Watcher × List WatchKey) dr => processTriple q.1 q.2 f.name dr.1 dr.2)
      (w, seen)

/-- All collection fields of one entry (the `entry[1:]` loop). -/
def processFields (w : Watcher) (seen : List WatchKey) :
    List EntryField → Watcher × List WatchKey
  | [] => (w, seen)
  | f :: fs =>
    let p := processField w seen f
    processFields p.1 p.2 fs

/-- The main scan of `Watcher.sync` (source lines 329-396).  The entries
are supplied newest first, as the reverse-natural-order iterator yields
them.  An empty entry is logged and skipped; an entry whose first field
is not named `_id` panics (`none`); the entry whose id equals the
`lastId` recorded at pass start stops the scan. -/
def syncLoop (w : Watcher) (seen : List WatchKey) (first : Bool)
    (lastId : Option FieldVal) : List LogEntry → Option Watcher
  | [] => some w
  | entry :: rest =>
    match entry with
    | [] => syncLoop w seen first lastId rest
    | idf :: cs =>
      if idf.name ≠ "_id" then none
      else
        let w' := if first then { w with lastId := some idf.val } else w
        if some idf.val = lastId then some w'
        else
          let p := processFields w' seen cs
          syncLoop p.1 p.2 false lastId rest

/-- `Watcher.sync`: one sync pass over the given newest-first entries. -/
def sync (w : Watcher) (entries : List LogEntry) : Option Watcher :=
  syncLoop w [] true w.lastId entries

/-- An out-of-range queue read; its cleared channel makes it inert. -/
def dummyEvent : Event := ⟨none, ⟨"", none⟩, 0⟩

/-- The send a flush performs for one event: nothing when the event has
been tombstoned, otherwise the pair of the target channel and the
`Change{e.key.c, e.key.id, e.revno}` value. -/
def live (e : Event) : List (Chan × Change) :=
  match e.ch with
  | none => []
  | some c => [(c, ⟨e.key.c, e.key.id, e.revno⟩)]

/-- The sends of a whole queue, in queue order. -/
def liveSends : List Event → List (Chan × Change)
  | [] => []
  | e :: es => live e ++ liveSends es

/-- The inner send loop of `flush` for one event slot (source lines
219-229 and 235-245).  `get` reads the slot from the live state, as the
source does through a pointer into the queue.  The schedule `st` lists
what happens at each attempt while the send blocks: `some r` is a request
arriving on the request channel (handled in place, then the slot is
re-examined), `none` lets the pending send complete.  A cleared slot is
skipped without consuming the schedule, since no send is attempted. -/
def deliver (w : Watcher) (get : Watcher → Event) :
    List (Option Req) → Option (Watcher × List (Option Req) × List (Chan × Change))
  | [] => some (w, [], live (get w))
  | none :: rs =>
    match (get w).ch with
    | none => some (w, none :: rs, [])
    | some _ => some (w, rs, live (get w))
  | some r :: rs =>
    match (get w).ch with
    | none => some (w, some r :: rs, [])
    | some _ => (handle w r).bind fun w' => deliver w' get rs

/-- The first half of `flush` (source lines 217-230): the sync-event queue
is walked by the given index list; the source uses the indices from
`len(w.syncEvents)-1` down to `0`. -/
def flushSyncs (w : Watcher) (st : List (Option Req)) (sent : List (Chan × Change)) :
    List Nat → Option (Watcher × List (Option Req) × List (Chan × Change))
  | [] => some (w, st, sent)
  | i :: is =>
    (deliver w (fun w0 => w0.syncEvents.getD i dummyEvent) st).bind
      fun p => flushSyncs p.1 p.2.1 (sent ++ p.2.2) is

/-- The second half of `flush` (source lines 233-246): the request-event
queue is walked by an increasing index checked against the live length,
which may grow while requests are handled.  `fuel` bounds the number of
loop iterations; `flush` supplies enough for any schedule. -/
def flushReqs : Nat → Watcher → List (Option Req) → Nat → List (Chan × Change) →
    Option (Watcher × List (Option Req) × List (Chan × Change))
  | fuel, w, st, i, sent =>
    if i < w.requestEvents.length then
      match fuel with
      | 0 => none
      | fuel' + 1 =>
        (deliver w (fun w0 => w0.requestEvents.getD i dummyEvent) st).bind
          fun p => flushReqs fuel' p.1 p.2.1 (i + 1) (sent ++ p.2.2)
    else some (w, st, sent)

/-- `Watcher.flush` (source lines 215-249), parameterised by the schedule
of requests arriving while sends block: drain the sync-event queue in
reverse index order, then the request-event queue in increasing index
order against its live length, and finally truncate both queues. -/
def flush (w : Watcher) (st : List (Option Req)) :
    Option (Watcher × List (Chan × Change)) :=
  (flushSyncs w st [] (List.range w.syncEvents.length).reverse).bind fun p =>
    (flushReqs (p.1.requestEvents.length + 2 * p.2.1.length + 1) p.1 p.2.1 0 p.2.2).bind
      fun q => some ({ q.1 with syncEvents := [], requestEvents := [] }, q.2.2)

end StateWatcher

namespace StateWatcher

theorem alistGet?_set_self {α β : Type} [DecidableEq α] (m : List (α × β)) (k : α) (v : β) :
    alistGet? (alistSet m k v) k = some v := by
  induction m with
  | nil => simp [alistSet, alistGet?]
  | cons p rest ih =>
    obtain ⟨a, b⟩ := p
    by_cases h : a = k
    · simp [alistSet, alistGet?, h]
    · simp [alistSet, alistGet?, h, ih]

theorem alistGet?_set_ne {α β : Type} [DecidableEq α] (m : List (α × β)) (k k' : α) (v : β)
    (h : k' ≠ k) : alistGet? (alistSet m k v) k' = alistGet? m k' := by
  induction m with
  | nil => simp [alistSet, alistGet?, Ne.symm h]
  | cons p rest ih =>
    obtain ⟨a, b⟩ := p
    by_cases ha : a = k
    · subst ha
      simp [alistSet, alistGet?, h, Ne.symm h]
    · by_cases ha' : a = k'
      · simp [alistSet, alistGet?, ha, ha', h]
      · simp [alistSet, alistGet?, ha, ha', ih]

theorem mem_alistSet {α β : Type} [DecidableEq α] (m : List (α × β)) (k : α) (v : β)
    (p : α × β) (hp : p ∈ alistSet m k v) : p ∈ m ∨ p = (k, v) := by
  induction m with
  | nil => simpa [alistSet] using hp
  | cons q rest ih =>
    obtain ⟨a, b⟩ := q
    by_cases h : a = k
    · simp only [alistSet, h, if_pos rfl] at hp
      rcases List.mem_cons.mp hp with h1 | h1
      · exact Or.inr h1
      · exact Or.inl (List.mem_cons_of_mem _ h1)
    · simp only [alistSet, if_neg h] at hp
      rcases List.mem_cons.mp hp with h1 | h1
      · exact Or.inl (h1 ▸ List.mem_cons_self _ _)
      · rcases ih h1 with h2 | h2
        · exact Or.inl (List.mem_cons_of_mem _ h2)
        · exact Or.inr h2

theorem processTriple_seen (w : Watcher) (seen : List WatchKey) (cname : String)
    (did : Int) (rv : RVal) (h : (⟨cname, some did⟩ : WatchKey) ∈ seen) :
    processTriple w seen cname did rv = (w, seen) := by
  simp [processTriple, h]

theorem processTriple_other (w : Watcher) (seen : List WatchKey) (cname : String)
    (did : Int) (h : (⟨cname, some did⟩ : WatchKey) ∉ seen) :
    processTriple w seen cname did .other = (w, ⟨cname, some did⟩ :: seen) := by
  simp [processTriple, h]

end StateWatcher

namespace StateWatcher

/-- A watcher with one collection-level subscriber of `users` on channel 1. -/
def usersCollWatch : Watcher :=
  { newWatcher with watches := [(⟨"users", none⟩, [⟨1, 0⟩])] }

/-- A watcher with one collection-level subscriber of `apps` on channel 1. -/
def appsCollWatch : Watcher :=
  { newWatcher with watches := [(⟨"apps", none⟩, [⟨1, 0⟩])] }

/-- A watcher whose registry holds revno 5 for document 7 of `users`. -/
def regUsers7 : Watcher :=
  { newWatcher with current := [(⟨"users", some 7⟩, 5)] }

/-- C1: handling a reqWatch: when the registry holds v for the key and
either v is strictly newer than the declared revno, or v is -1 while the
declared revno is at least 0, exactly one catch-up request-event
(ch, key, v) is appended and the subscriber is appended with its known
revno advanced to v; otherwise, including when the key is absent from the
registry, no event is enqueued and the subscriber is appended with its
declared revno unchanged. -/
theorem watcher_C1_watch_catchup (w : Watcher) (key : WatchKey) (info : WatchInfo)
    (hnodup : ∀ i ∈ w.watchesGet key, i.ch ≠ info.ch) :
    (∀ v, alistGet? w.current key = some v →
      v > info.revno ∨ (v = -1 ∧ 0 ≤ info.revno) →
      handle w (.watch key info) =
        some { w with
          requestEvents := w.requestEvents ++ [⟨some info.ch, key, v⟩],
          watches := alistSet w.watches key
            (w.watchesGet key ++ [{ info with revno := v }]) }) ∧
    (∀ v, alistGet? w.current key = some v →
      ¬(v > info.revno ∨ (v = -1 ∧ 0 ≤ info.revno)) →
      handle w (.watch key info) =
        some { w with watches := alistSet w.watches key (w.watchesGet key ++ [info]) }) ∧
    (alistGet? w.current key = none →
      handle w (.watch key info) =
        some { w with watches := alistSet w.watches key (w.watchesGet key ++ [info]) }) := by
  have hany : ((w.watchesGet key).any fun i => i.ch = info.ch) = false := by
    simp only [List.any_eq_false, decide_eq_true_eq]
    exact fun i hi => hnodup i hi
  refine ⟨fun v hv hcond => ?_, fun v hv hcond => ?_, fun hv => ?_⟩
  · simp [handle, hany, hv, hcond]
  · simp [handle, hany, hv, hcond]
  · simp [handle, hany, hv]

/-- Witness for C1 at a concrete input: registry value 5, declared revno 3. -/
theorem watcher_C1_witness :
    handle regUsers7 (.watch ⟨"users", some 7⟩ ⟨4, 3⟩) =
      some { regUsers7 with
        requestEvents := regUsers7.requestEvents ++ [⟨some 4, ⟨"users", some 7⟩, 5⟩],
        watches := alistSet regUsers7.watches ⟨"users", some 7⟩
          (regUsers7.watchesGet ⟨"users", some 7⟩ ++ [⟨4, 5⟩]) } :=
  (watcher_C1_watch_catchup regUsers7 ⟨"users", some 7⟩ ⟨4, 3⟩ (by decide)).1 5
    (by decide) (by decide)

/-- C8: attaching a channel that is already in the subscription list of
the same key is fatal, for any key (per-document or per-collection) and
any declared revno. -/
theorem watcher_C8_duplicate_attach_fatal (w : Watcher) (key : WatchKey) (info : WatchInfo)
    (h : ∃ i ∈ w.watchesGet key, i.ch = info.ch) :
    handle w (.watch key info) = none := by
  obtain ⟨i, hi, hch⟩ := h
  have hany : ((w.watchesGet key).any fun j => j.ch = info.ch) = true := by
    simp only [List.any_eq_true, decide_eq_true_eq]
    exact ⟨i, hi, hch⟩
  simp [handle, hany]

/-- Witness for C8: re-attaching collection channel 1 to `apps` panics. -/
theorem watcher_C8_witness :
    handle appsCollWatch (WatchCollection "apps" 1) = none :=
  watcher_C8_duplicate_attach_fatal appsCollWatch ⟨"apps", none⟩ ⟨1, 0⟩ (by decide)

/-- C7 (amended): the sync scan treats an empty change-log entry as
non-fatal: the entry is skipped and the scan continues with the remaining
entries. -/
theorem watcher_C7_empty_entry_skipped (w : Watcher) (seen : List WatchKey)
    (first : Bool) (lastId : Option FieldVal) (rest : List LogEntry) :
    syncLoop w seen first lastId ([] :: rest) = syncLoop w seen first lastId rest := rfl

/-- Counterexample to C7 as stated: a sync pass over a single empty entry
does not panic; it completes and leaves the state unchanged. -/
theorem watcher_C7_cex : sync newWatcher [([] : LogEntry)] = some newWatcher := rfl

/-- C2 divergence witnessed on the code: the registry read in the sync
scan uses the Go zero value, so a key absent from the registry compares
as revno 0 rather than -1.  A first-ever triple with canonical revno -1
therefore updates the registry and queues an event, and a first-ever
triple with canonical revno 0 is skipped - the opposite of the claim. -/
theorem watcher_C2_absent_key_reads_zero :
    sync usersCollWatch [[⟨"_id", .idv 1⟩, ⟨"users", .coll [7] [.int64 (-1)]⟩]] =
      some { usersCollWatch with
        current := [(⟨"users", some 7⟩, -1)],
        syncEvents := [⟨some 1, ⟨"users", some 7⟩, -1⟩],
        lastId := some (.idv 1) } ∧
    sync usersCollWatch [[⟨"_id", .idv 2⟩, ⟨"users", .coll [8] [.int64 0]⟩]] =
      some { usersCollWatch with lastId := some (.idv 2) } :=
  ⟨rfl, rfl⟩

/-- C4: within one sync pass the first occurrence of a key wins: a key
already in the seen set is skipped with no state change, and in the
concrete scenario (collection watcher on `apps`, one entry with ids
[1, 2, 1] and revnos [10, 11, 12], scanned in reverse array order) exactly
two events are queued: id 1 with revno 12 and id 2 with revno 11. -/
theorem watcher_C4_first_occurrence_wins :
    (∀ (w : Watcher) (seen : List WatchKey) (cname : String) (did : Int) (rv : RVal),
      (⟨cname, some did⟩ : WatchKey) ∈ seen →
      processTriple w seen cname did rv = (w, seen)) ∧
    sync appsCollWatch
        [[⟨"_id", .idv 100⟩, ⟨"apps", .coll [1, 2, 1] [.int64 10, .int64 11, .int64 12]⟩]] =
      some { appsCollWatch with
        current := [(⟨"apps", some 1⟩, 12), (⟨"apps", some 2⟩, 11)],
        syncEvents := [⟨some 1, ⟨"apps", some 1⟩, 12⟩, ⟨some 1, ⟨"apps", some 2⟩, 11⟩],
        lastId := some (.idv 100) } :=
  ⟨fun w seen cname did rv h => processTriple_seen w seen cname did rv h, rfl⟩

/-- Witness for C4's seen-set clause at a concrete input. -/
theorem watcher_C4_witness :
    processTriple newWatcher [⟨"apps", some 1⟩] "apps" 1 (.int64 99) =
      (newWatcher, [⟨"apps", some 1⟩]) :=
  watcher_C4_first_occurrence_wins.1 newWatcher [⟨"apps", some 1⟩] "apps" 1 (.int64 99)
    (by decide)

/-- C10: a triple whose revno fails the int64 type check has already added
its key to the seen set, so every later occurrence of the key in the pass
is skipped and the registry entry for the key is unchanged; concretely, a
newer entry with a malformed revno suppresses an older entry carrying a
valid revno for the same key. -/
theorem watcher_C10_type_check_after_seen :
    (∀ (w : Watcher) (seen : List WatchKey) (cname : String) (did : Int),
      (⟨cname, some did⟩ : WatchKey) ∉ seen →
      processTriple w seen cname did .other = (w, (⟨cname, some did⟩ : WatchKey) :: seen)) ∧
    (∀ (w : Watcher) (seen : List WatchKey) (cname : String) (did : Int) (rv : RVal),
      (⟨cname, some did⟩ : WatchKey) ∈ seen →
      processTriple w seen cname did rv = (w, seen)) ∧
    sync usersCollWatch
        [[⟨"_id", .idv 2⟩, ⟨"users", .coll [7] [.other]⟩],
         [⟨"_id", .idv 1⟩, ⟨"users", .coll [7] [.int64 5]⟩]] =
      some { usersCollWatch with lastId := some (.idv 2) } :=
  ⟨fun w seen c d h => processTriple_other w seen c d h,
   fun w seen c d rv h => processTriple_seen w seen c d rv h, rfl⟩

/-- Witness for C10's clauses at concrete inputs. -/
theorem watcher_C10_witness :
    processTriple newWatcher [] "users" 7 .other = (newWatcher, [⟨"users", some 7⟩]) :=
  watcher_C10_type_check_after_seen.1 newWatcher [] "users" 7 (by decide)

end StateWatcher

namespace StateWatcher

theorem notifyDoc_spec (l : List WatchInfo) (key : WatchKey) (v : Int) :
    notifyDoc l key v =
      (l.map fun i => if v > i.revno ∨ (v < 0 ∧ 0 ≤ i.revno) then { i with revno := v } else i,
       (l.filter fun i => decide (v > i.revno ∨ (v < 0 ∧ 0 ≤ i.revno))).map
         fun i => (⟨some i.ch, key, v⟩ : Event)) := by
  induction l with
  | nil => rfl
  | cons x xs ih =>
    by_cases h : v > x.revno ∨ (v < 0 ∧ 0 ≤ x.revno) <;>
      simp [notifyDoc, ih, h]

/-- C3: during a sync pass, when the registry value of a per-document key
is updated to the canonical revno v, every collection-level subscriber of
that collection is queued one sync-event unconditionally, and each
per-document subscriber of the key is queued exactly one sync-event with
revno v and has its stored revno advanced to v precisely when v is
strictly newer than its known revno or v is -1 while its known revno is
at least 0; all other per-document subscribers get no event and keep
their revno. -/
theorem watcher_C3_sync_notification (w : Watcher) (seen : List WatchKey)
    (cname : String) (did : Int) (n v : Int)
    (hv : v = if n < 0 then -1 else n)
    (hseen : (⟨cname, some did⟩ : WatchKey) ∉ seen)
    (hne : w.currentRead ⟨cname, some did⟩ ≠ v) :
    alistGet? (processTriple w seen cname did (.int64 n)).1.current ⟨cname, some did⟩ =
      some v ∧
    (processTriple w seen cname did (.int64 n)).1.syncEvents =
      w.syncEvents ++
        (w.watchesGet ⟨cname, none⟩).map
          (fun i => (⟨some i.ch, ⟨cname, some did⟩, v⟩ : Event)) ++
        ((w.watchesGet ⟨cname, some did⟩).filter fun i =>
            decide (v > i.revno ∨ (v = -1 ∧ 0 ≤ i.revno))).map
          (fun i => (⟨some i.ch, ⟨cname, some did⟩, v⟩ : Event)) ∧
    (processTriple w seen cname did (.int64 n)).1.watchesGet ⟨cname, some did⟩ =
      (w.watchesGet ⟨cname, some did⟩).map fun i =>
        if v > i.revno ∨ (v = -1 ∧ 0 ≤ i.revno) then { i with revno := v } else i := by
  have hc : v < 0 ↔ v = -1 := by subst hv; split <;> omega
  have hfilter : (fun i : WatchInfo => decide (v > i.revno ∨ (v < 0 ∧ 0 ≤ i.revno))) =
      (fun i : WatchInfo => decide (v > i.revno ∨ (v = -1 ∧ 0 ≤ i.revno))) :=
    funext fun i => decide_eq_decide.mpr (by rw [hc])
  have hmap : (fun i : WatchInfo =>
        if v > i.revno ∨ (v < 0 ∧ 0 ≤ i.revno) then { i with revno := v } else i) =
      (fun i : WatchInfo =>
        if v > i.revno ∨ (v = -1 ∧ 0 ≤ i.revno) then { i with revno := v } else i) :=
    funext fun i => if_congr (by rw [hc]) rfl rfl
  simp only [processTriple, if_neg hseen, ← hv, if_neg hne]
  rcases hw : alistGet? w.watches ⟨cname, some did⟩ with _ | infos
  · refine ⟨alistGet?_set_self _ _ _, ?_, ?_⟩
    · simp [Watcher.watchesGet, hw, notifyDoc_spec]
    · simp [Watcher.watchesGet, hw]
  · refine ⟨alistGet?_set_self _ _ _, ?_, ?_⟩
    · simp only [Watcher.watchesGet, hw, Option.getD_some, notifyDoc_spec, hfilter]
    · simp only [Watcher.watchesGet, hw, Option.getD_some, notifyDoc_spec, hmap,
        alistGet?_set_self]

end StateWatcher

namespace StateWatcher

/-- A watcher with a collection subscriber of `users` on channel 1 and two
per-document subscribers of document 7 on channels 2 and 3. -/
def docAndCollWatch : Watcher :=
  { newWatcher with
    watches := [(⟨"users", none⟩, [⟨1, 0⟩]), (⟨"users", some 7⟩, [⟨2, 3⟩, ⟨3, 9⟩])] }

/-- Witness for C3 at a concrete input: new canonical revno 5; the
subscriber that knows revno 3 is notified and advanced, the one that
knows revno 9 is untouched, and the collection subscriber is notified. -/
theorem watcher_C3_witness :
    alistGet? (processTriple docAndCollWatch [] "users" 7 (.int64 5)).1.current
        ⟨"users", some 7⟩ = some 5 ∧
    (processTriple docAndCollWatch [] "users" 7 (.int64 5)).1.syncEvents =
      docAndCollWatch.syncEvents ++
        (docAndCollWatch.watchesGet ⟨"users", none⟩).map
          (fun i => (⟨some i.ch, ⟨"users", some 7⟩, 5⟩ : Event)) ++
        ((docAndCollWatch.watchesGet ⟨"users", some 7⟩).filter fun i =>
            decide ((5 : Int) > i.revno ∨ ((5 : Int) = -1 ∧ 0 ≤ i.revno))).map
          (fun i => (⟨some i.ch, ⟨"users", some 7⟩, 5⟩ : Event)) ∧
    (processTriple docAndCollWatch [] "users" 7 (.int64 5)).1.watchesGet
        ⟨"users", some 7⟩ =
      (docAndCollWatch.watchesGet ⟨"users", some 7⟩).map fun i =>
        if (5 : Int) > i.revno ∨ ((5 : Int) = -1 ∧ 0 ≤ i.revno) then { i with revno := 5 }
        else i :=
  watcher_C3_sync_notification docAndCollWatch [] "users" 7 5 5 (by decide) (by decide)
    (by decide)

theorem liveSends_append (a b : List Event) :
    liveSends (a ++ b) = liveSends a ++ liveSends b := by
  induction a with
  | nil => rfl
  | cons x xs ih => simp [liveSends, ih]

theorem flushSyncs_nil (w : Watcher) (sent : List (Chan × Change)) (idxs : List Nat) :
    flushSyncs w [] sent idxs =
      some (w, [], sent ++ liveSends (idxs.map fun i => w.syncEvents.getD i dummyEvent)) := by
  induction idxs generalizing sent with
  | nil => simp [flushSyncs, liveSends]
  | cons i is ih =>
    simp [flushSyncs, deliver, ih, liveSends, List.append_assoc]

theorem map_getD_range (l : List Event) :
    (List.range l.length).map (fun i => l.getD i dummyEvent) = l := by
  induction l with
  | nil => rfl
  | cons x xs ih =>
    rw [List.length_cons, List.range_succ_eq_map, List.map_cons, List.map_map]
    have hcomp : ((fun i => (x :: xs).getD i dummyEvent) ∘ Nat.succ) =
        fun i => xs.getD i dummyEvent :=
      funext fun i => by simp [Function.comp, List.getD_cons_succ]
    rw [hcomp, ih]
    simp [List.getD_cons_zero]

theorem map_getD_range_reverse (l : List Event) :
    (List.range l.length).reverse.map (fun i => l.getD i dummyEvent) = l.reverse := by
  rw [List.map_reverse, map_getD_range]

theorem getD_cons_drop (l : List Event) (i : Nat) (h : i < l.length) :
    l.getD i dummyEvent :: l.drop (i + 1) = l.drop i := by
  induction l generalizing i with
  | nil => simp at h
  | cons x xs ih =>
    cases i with
    | zero => simp
    | succ j => simpa [List.getD_cons_succ] using ih j (by simpa using h)

theorem flushReqs_nil (fuel : Nat) (w : Watcher) (i : Nat) (sent : List (Chan × Change))
    (h : w.requestEvents.length ≤ i + fuel) :
    flushReqs fuel w [] i sent =
      some (w, [], sent ++ liveSends (w.requestEvents.drop i)) := by
  induction fuel generalizing i sent with
  | zero =>
    have hle : w.requestEvents.length ≤ i := by omega
    have hdrop : w.requestEvents.drop i = [] := List.drop_eq_nil_of_le hle
    simp only [flushReqs]
    rw [if_neg (by omega), hdrop]
    simp [liveSends]
  | succ fuel ih =>
    by_cases hi : i < w.requestEvents.length
    · simp only [flushReqs]
      rw [if_pos hi]
      show (deliver w (fun w0 => w0.requestEvents.getD i dummyEvent) []).bind _ = _
      rw [show deliver w (fun w0 => w0.requestEvents.getD i dummyEvent) [] =
          some (w, [], live (w.requestEvents.getD i dummyEvent)) from rfl]
      rw [Option.some_bind]
      rw [ih (i + 1) (sent ++ live (w.requestEvents.getD i dummyEvent)) (by omega)]
      rw [List.append_assoc]
      rw [show live (w.requestEvents.getD i dummyEvent) ++
            liveSends (w.requestEvents.drop (i + 1)) =
          liveSends (w.requestEvents.getD i dummyEvent :: w.requestEvents.drop (i + 1))
          from rfl]
      rw [getD_cons_drop _ _ hi]
    · simp only [flushReqs]
      rw [if_neg hi]
      have hdrop : w.requestEvents.drop i = [] := List.drop_eq_nil_of_le (by omega)
      rw [hdrop]
      simp [liveSends]

theorem flush_nil (w : Watcher) :
    flush w [] =
      some ({ w with syncEvents := [], requestEvents := [] },
        liveSends w.syncEvents.reverse ++ liveSends w.requestEvents) := by
  unfold flush
  rw [flushSyncs_nil, Option.some_bind, map_getD_range_reverse]
  rw [flushReqs_nil _ _ _ _ (by omega), Option.some_bind]
  simp

theorem flush_some_queues_empty (w : Watcher) (st : List (Option Req))
    (r : Watcher × List (Chan × Change)) (h : flush w st = some r) :
    r.1.syncEvents = [] ∧ r.1.requestEvents = [] := by
  unfold flush at h
  rw [Option.bind_eq_some] at h
  obtain ⟨p, hp, h⟩ := h
  rw [Option.bind_eq_some] at h
  obtain ⟨q, hq, h⟩ := h
  cases h
  exact ⟨rfl, rfl⟩

end StateWatcher

namespace StateWatcher

/-- C5 (amended): a flush drains the sync-event queue in reverse index
order, so the most recently queued sync-event (which carries the oldest
change) is sent first; it then drains the request-event queue in
increasing index order against its live length, which may grow while
interleaved requests are handled (the concrete clause shows a watch
request handled mid-flush appending a catch-up event that the same flush
delivers); a tombstoned event is skipped without a send; and after a
flush that runs to completion both queues are empty. -/
theorem watcher_C5_flush_order :
    (∀ w : Watcher, flush w [] =
      some ({ w with syncEvents := [], requestEvents := [] },
        liveSends w.syncEvents.reverse ++ liveSends w.requestEvents)) ∧
    (∀ (w : Watcher) (st : List (Option Req)) (r : Watcher × List (Chan × Change)),
      flush w st = some r → r.1.syncEvents = [] ∧ r.1.requestEvents = []) ∧
    flush { newWatcher with
        current := [(⟨"users", some 7⟩, 5)],
        requestEvents := [⟨some 1, ⟨"x", some 0⟩, 1⟩] }
      [some (.watch ⟨"users", some 7⟩ ⟨2, 0⟩)] =
      some ({ newWatcher with
          watches := [(⟨"users", some 7⟩, [⟨2, 5⟩])],
          current := [(⟨"users", some 7⟩, 5)] },
        [(1, ⟨"x", some 0, 1⟩), (2, ⟨"users", some 7, 5⟩)]) :=
  ⟨flush_nil, flush_some_queues_empty, by decide⟩

/-- Witness for C5's queue-truncation clause at a concrete input. -/
theorem watcher_C5_witness :
    ({ regUsers7 with syncEvents := [], requestEvents := [] },
      ([] : List (Chan × Change))).1.syncEvents = [] ∧
    ({ regUsers7 with syncEvents := [], requestEvents := [] },
      ([] : List (Chan × Change))).1.requestEvents = [] :=
  watcher_C5_flush_order.2.1 regUsers7 [] _ (by decide)

/-- Counterexample to C5 as stated: with two live queued sync-events, a
completed flush sends the event at the highest index - the most recently
queued one - first; the oldest-queued sync-event, at index 0, is sent
last, not first. -/
theorem watcher_C5_cex :
    (flush { newWatcher with
        syncEvents := [⟨some 1, ⟨"a", some 1⟩, 10⟩, ⟨some 2, ⟨"a", some 2⟩, 11⟩] } []).map
        (fun p => p.2) =
      some [(2, ⟨"a", some 2, 11⟩), (1, ⟨"a", some 1, 10⟩)] := by decide

end StateWatcher

namespace StateWatcher

/-- No pending event in either queue of the watcher can produce a send to
the given channel for the given key. -/
def noPending (w : Watcher) (key : WatchKey) (ch : Chan) : Prop :=
  (∀ e ∈ w.syncEvents, e.key = key → e.ch ≠ some ch) ∧
  (∀ e ∈ w.requestEvents, e.key = key → e.ch ≠ some ch)

/-- The request does not re-attach the given channel to the given key. -/
def noReattach (r : Req) (key : WatchKey) (ch : Chan) : Prop :=
  match r with
  | .watch k i => ¬(k = key ∧ i.ch = ch)
  | .unwatch _ _ => True

theorem watchKey_eq (a b : WatchKey) (h1 : a.c = b.c) (h2 : a.id = b.id) : a = b := by
  cases a
  cases b
  cases h1
  cases h2
  rfl

theorem tombstone_silent (evs : List Event) (key : WatchKey) (ch : Chan) :
    ∀ e ∈ tombstone evs key ch, e.key = key → e.ch ≠ some ch := by
  intro e he hk
  simp only [tombstone, List.mem_map] at he
  obtain ⟨e0, _, heq⟩ := he
  by_cases hc : e0.key = key ∧ e0.ch = some ch
  · rw [if_pos hc] at heq
    rw [← heq]
    simp
  · rw [if_neg hc] at heq
    rw [← heq] at hk ⊢
    intro habs
    exact hc ⟨hk, habs⟩

theorem tombstone_preserves (evs : List Event) (k0 : WatchKey) (c0 : Chan)
    (key : WatchKey) (ch : Chan) (hevs : ∀ e ∈ evs, e.key = key → e.ch ≠ some ch) :
    ∀ e ∈ tombstone evs k0 c0, e.key = key → e.ch ≠ some ch := by
  intro e he hk
  simp only [tombstone, List.mem_map] at he
  obtain ⟨e0, he0, heq⟩ := he
  by_cases hc : e0.key = k0 ∧ e0.ch = some c0
  · rw [if_pos hc] at heq
    rw [← heq]
    simp
  · rw [if_neg hc] at heq
    rw [← heq] at hk ⊢
    exact hevs e0 he0 hk

theorem handle_preserves_noPending (w w' : Watcher) (r : Req) (key : WatchKey) (ch : Chan)
    (h : handle w r = some w') (hr : noReattach r key ch) (hw : noPending w key ch) :
    noPending w' key ch := by
  cases r with
  | watch k i =>
    by_cases hb : ((w.watchesGet k).any fun j => j.ch = i.ch) = true
    · simp [handle, hb] at h
    · simp only [handle] at h
      rw [if_neg hb] at h
      obtain rfl := Option.some.inj h
      refine ⟨hw.1, ?_⟩
      intro e he hk
      rcases hc : alistGet? w.current k with _ | v
      · rw [hc] at he
        exact hw.2 e he hk
      · simp only [hc] at he
        by_cases hcond : v > i.revno ∨ (v = -1 ∧ 0 ≤ i.revno)
        · rw [if_pos hcond] at he
          rcases List.mem_append.mp he with h1 | h1
          · exact hw.2 e h1 hk
          · rw [List.mem_singleton] at h1
            subst h1
            intro habs
            have hik : i.ch = ch := by
              have := Option.some.inj habs
              exact this
            have hkk : k = key := hk
            exact hr ⟨hkk, hik⟩
        · rw [if_neg hcond] at he
          exact hw.2 e he hk
  | unwatch k c =>
    simp only [handle] at h
    obtain rfl := Option.some.inj h
    exact ⟨tombstone_preserves _ _ _ _ _ hw.1, tombstone_preserves _ _ _ _ _ hw.2⟩

end StateWatcher

namespace StateWatcher

theorem live_good (key : WatchKey) (ch : Chan) (e : Event)
    (he : e.key = key → e.ch ≠ some ch) :
    ∀ p ∈ live e, ¬(p.1 = ch ∧ p.2.C = key.c ∧ p.2.Id = key.id) := by
  intro p hp
  rcases hch : e.ch with _ | c
  · simp [live, hch] at hp
  · simp only [live, hch, List.mem_singleton] at hp
    subst hp
    rintro ⟨h1, h2, h3⟩
    have h1' : c = ch := h1
    have h2' : e.key.c = key.c := h2
    have h3' : e.key.id = key.id := h3
    have hkeq : e.key = key := watchKey_eq _ _ h2' h3'
    have := he hkeq
    rw [hch] at this
    exact this (by rw [h1'])

theorem deliver_good (key : WatchKey) (ch : Chan) (get : Watcher → Event)
    (hget : ∀ w0 : Watcher, noPending w0 key ch → (get w0).key = key → (get w0).ch ≠ some ch) :
    ∀ (st : List (Option Req)) (w w' : Watcher) (st' : List (Option Req))
      (sent : List (Chan × Change)),
      deliver w get st = some (w', st', sent) →
      (∀ x ∈ st, ∀ q, x = some q → noReattach q key ch) →
      noPending w key ch →
      noPending w' key ch ∧ (∀ x ∈ st', x ∈ st) ∧
      (∀ p ∈ sent, ¬(p.1 = ch ∧ p.2.C = key.c ∧ p.2.Id = key.id)) := by
  intro st
  induction st with
  | nil =>
    intro w w' st' sent h hst hw
    simp only [deliver, Option.some.injEq, Prod.mk.injEq] at h
    obtain ⟨h1, h2, h3⟩ := h
    subst h1
    subst h2
    subst h3
    exact ⟨hw, fun x hx => hx, live_good key ch _ (hget w hw)⟩
  | cons x rs ih =>
    intro w w' st' sent h hst hw
    cases x with
    | none =>
      rcases hch : (get w).ch with _ | c
      · simp only [deliver, hch, Option.some.injEq, Prod.mk.injEq] at h
        obtain ⟨h1, h2, h3⟩ := h
        subst h1
        subst h2
        subst h3
        exact ⟨hw, fun x hx => hx, by simp⟩
      · simp only [deliver, hch, Option.some.injEq, Prod.mk.injEq] at h
        obtain ⟨h1, h2, h3⟩ := h
        subst h1
        subst h2
        subst h3
        exact ⟨hw, fun x hx => List.mem_cons_of_mem _ hx,
          live_good key ch _ (hget w hw)⟩
    | some r =>
      rcases hch : (get w).ch with _ | c
      · simp only [deliver, hch, Option.some.injEq, Prod.mk.injEq] at h
        obtain ⟨h1, h2, h3⟩ := h
        subst h1
        subst h2
        subst h3
        exact ⟨hw, fun x hx => hx, by simp⟩
      · simp only [deliver, hch] at h
        rw [Option.bind_eq_some] at h
        obtain ⟨w1, hw1, hdel⟩ := h
        have hr : noReattach r key ch := hst (some r) (List.mem_cons_self _ _) r rfl
        have hw1p := handle_preserves_noPending w w1 r key ch hw1 hr hw
        have hrec := ih w1 w' st' sent hdel
          (fun y hy q hq => hst y (List.mem_cons_of_mem _ hy) q hq) hw1p
        exact ⟨hrec.1, fun y hy => List.mem_cons_of_mem _ (hrec.2.1 y hy), hrec.2.2⟩

theorem getD_silent_syncEvents (key : WatchKey) (ch : Chan) (i : Nat) :
    ∀ w0 : Watcher, noPending w0 key ch →
      (w0.syncEvents.getD i dummyEvent).key = key →
      (w0.syncEvents.getD i dummyEvent).ch ≠ some ch := by
  intro w0 hw0 hk
  by_cases hlen : i < w0.syncEvents.length
  · have hmem : w0.syncEvents.getD i dummyEvent ∈ w0.syncEvents := by
      rw [List.getD_eq_getElem _ _ hlen]
      exact List.getElem_mem hlen
    exact hw0.1 _ hmem hk
  · have hd : w0.syncEvents.getD i dummyEvent = dummyEvent := by
      rw [List.getD_eq_getElem?_getD, List.getElem?_eq_none (by omega)]
      rfl
    rw [hd]
    simp [dummyEvent]

theorem getD_silent_requestEvents (key : WatchKey) (ch : Chan) (i : Nat) :
    ∀ w0 : Watcher, noPending w0 key ch →
      (w0.requestEvents.getD i dummyEvent).key = key →
      (w0.requestEvents.getD i dummyEvent).ch ≠ some ch := by
  intro w0 hw0 hk
  by_cases hlen : i < w0.requestEvents.length
  · have hmem : w0.requestEvents.getD i dummyEvent ∈ w0.requestEvents := by
      rw [List.getD_eq_getElem _ _ hlen]
      exact List.getElem_mem hlen
    exact hw0.2 _ hmem hk
  · have hd : w0.requestEvents.getD i dummyEvent = dummyEvent := by
      rw [List.getD_eq_getElem?_getD, List.getElem?_eq_none (by omega)]
      rfl
    rw [hd]
    simp [dummyEvent]

theorem flushSyncs_good (key : WatchKey) (ch : Chan) :
    ∀ (idxs : List Nat) (st : List (Option Req)) (w w' : Watcher) (st' : List (Option Req))
      (sent sent' : List (Chan × Change)),
      flushSyncs w st sent idxs = some (w', st', sent') →
      (∀ x ∈ st, ∀ q, x = some q → noReattach q key ch) →
      noPending w key ch →
      (∀ p ∈ sent, ¬(p.1 = ch ∧ p.2.C = key.c ∧ p.2.Id = key.id)) →
      noPending w' key ch ∧ (∀ x ∈ st', x ∈ st) ∧
      (∀ p ∈ sent', ¬(p.1 = ch ∧ p.2.C = key.c ∧ p.2.Id = key.id)) := by
  intro idxs
  induction idxs with
  | nil =>
    intro st w w' st' sent sent' h hst hw hsent
    simp only [flushSyncs, Option.some.injEq, Prod.mk.injEq] at h
    obtain ⟨h1, h2, h3⟩ := h
    subst h1
    subst h2
    subst h3
    exact ⟨hw, fun x hx => hx, hsent⟩
  | cons i is ih =>
    intro st w w' st' sent sent' h hst hw hsent
    simp only [flushSyncs] at h
    rw [Option.bind_eq_some] at h
    obtain ⟨p, hdel, hrest⟩ := h
    obtain ⟨w1, st1, sent1⟩ := p
    have hd := deliver_good key ch _ (getD_silent_syncEvents key ch i) st w w1 st1 sent1
      hdel hst hw
    have hr := ih st1 w1 w' st' (sent ++ sent1) sent' hrest
      (fun x hx q hq => hst x (hd.2.1 x hx) q hq) hd.1
      (by
        intro p hp
        rcases List.mem_append.mp hp with h1 | h1
        · exact hsent p h1
        · exact hd.2.2 p h1)
    exact ⟨hr.1, fun x hx => hd.2.1 x (hr.2.1 x hx), hr.2.2⟩

theorem flushReqs_good (key : WatchKey) (ch : Chan) :
    ∀ (fuel : Nat) (st : List (Option Req)) (w w' : Watcher) (i : Nat)
      (st' : List (Option Req)) (sent sent' : List (Chan × Change)),
      flushReqs fuel w st i sent = some (w', st', sent') →
      (∀ x ∈ st, ∀ q, x = some q → noReattach q key ch) →
      noPending w key ch →
      (∀ p ∈ sent, ¬(p.1 = ch ∧ p.2.C = key.c ∧ p.2.Id = key.id)) →
      noPending w' key ch ∧ (∀ x ∈ st', x ∈ st) ∧
      (∀ p ∈ sent', ¬(p.1 = ch ∧ p.2.C = key.c ∧ p.2.Id = key.id)) := by
  intro fuel
  induction fuel with
  | zero =>
    intro st w w' i st' sent sent' h hst hw hsent
    simp only [flushReqs] at h
    by_cases hi : i < w.requestEvents.length
    · rw [if_pos hi] at h
      simp at h
    · rw [if_neg hi] at h
      simp only [Option.some.injEq, Prod.mk.injEq] at h
      obtain ⟨h1, h2, h3⟩ := h
      subst h1
      subst h2
      subst h3
      exact ⟨hw, fun x hx => hx, hsent⟩
  | succ fuel ih =>
    intro st w w' i st' sent sent' h hst hw hsent
    simp only [flushReqs] at h
    by_cases hi : i < w.requestEvents.length
    · rw [if_pos hi] at h
      rw [Option.bind_eq_some] at h
      obtain ⟨p, hdel, hrest⟩ := h
      obtain ⟨w1, st1, sent1⟩ := p
      have hd := deliver_good key ch _ (getD_silent_requestEvents key ch i) st w w1 st1 sent1
        hdel hst hw
      have hr := ih st1 w1 w' (i + 1) st' (sent ++ sent1) sent' hrest
        (fun x hx q hq => hst x (hd.2.1 x hx) q hq) hd.1
        (by
          intro p hp
          rcases List.mem_append.mp hp with h1 | h1
          · exact hsent p h1
          · exact hd.2.2 p h1)
      exact ⟨hr.1, fun x hx => hd.2.1 x (hr.2.1 x hx), hr.2.2⟩
    · rw [if_neg hi] at h
      simp only [Option.some.injEq, Prod.mk.injEq] at h
      obtain ⟨h1, h2, h3⟩ := h
      subst h1
      subst h2
      subst h3
      exact ⟨hw, fun x hx => hx, hsent⟩

theorem flush_good (key : WatchKey) (ch : Chan) (w : Watcher) (st : List (Option Req))
    (r : Watcher × List (Chan × Change)) (h : flush w st = some r)
    (hst : ∀ x ∈ st, ∀ q, x = some q → noReattach q key ch)
    (hw : noPending w key ch) :
    ∀ p ∈ r.2, ¬(p.1 = ch ∧ p.2.C = key.c ∧ p.2.Id = key.id) := by
  unfold flush at h
  rw [Option.bind_eq_some] at h
  obtain ⟨p, hp, h⟩ := h
  obtain ⟨w1, st1, sent1⟩ := p
  rw [Option.bind_eq_some] at h
  obtain ⟨q, hq, h⟩ := h
  obtain ⟨w2, st2, sent2⟩ := q
  cases h
  have h1 := flushSyncs_good key ch _ st w w1 st1 [] sent1 hp hst hw (by simp)
  have h2 := flushReqs_good key ch _ st1 w1 w2 0 st2 sent1 sent2 hq
    (fun x hx q hq2 => hst x (h1.2.1 x hx) q hq2) h1.1 h1.2.2
  exact h2.2.2

end StateWatcher

namespace StateWatcher

theorem getLastD_mem (l : List WatchInfo) : ∀ d : WatchInfo, l ≠ [] → l.getLastD d ∈ l := by
  induction l with
  | nil => intro d h; exact absurd rfl h
  | cons x xs ih =>
    intro d _
    rw [List.getLastD_cons]
    cases xs with
    | nil => simp
    | cons y ys => exact List.mem_cons_of_mem x (ih x (by simp))

theorem removeWatch_no_ch (ch : Chan) :
    ∀ l : List WatchInfo, l.countP (fun i => decide (i.ch = ch)) ≤ 1 →
    ∀ i ∈ removeWatch l ch, i.ch ≠ ch := by
  intro l
  induction l with
  | nil => intro _ i hi; simp [removeWatch] at hi
  | cons x xs ih =>
    intro hcount i hi
    by_cases hx : x.ch = ch
    · have hzero : xs.countP (fun j => decide (j.ch = ch)) = 0 := by
        rw [List.countP_cons_of_pos _ _ (by simp [hx])] at hcount
        omega
      have hnone : ∀ j ∈ xs, j.ch ≠ ch := by
        intro j hj
        have := List.countP_eq_zero.mp hzero j hj
        simpa using this
      cases xs with
      | nil =>
        simp only [removeWatch, if_pos hx] at hi
        exact absurd hi (List.not_mem_nil i)
      | cons y ys =>
        simp only [removeWatch, if_pos hx] at hi
        rcases List.mem_cons.mp hi with h1 | h1
        · subst h1
          exact hnone _ (getLastD_mem (y :: ys) x (by simp))
        · exact hnone _ (List.dropLast_subset _ h1)
    · simp only [removeWatch] at hi
      rw [if_neg hx] at hi
      rcases List.mem_cons.mp hi with h1 | h1
      · subst h1
        exact hx
      · refine ih ?_ i h1
        rw [List.countP_cons_of_neg _ _ (by simp [hx])] at hcount
        exact hcount

/-- C6: after the dispatcher handles reqUnwatch(key, ch), the record for
ch is removed from the subscription list of key, every event for
(key, ch) pending in either queue has its channel cleared, and a
subsequent flush that runs to completion - with any interleaved requests
that do not re-attach ch to key - performs no send to ch for key. -/
theorem watcher_C6_unwatch_silences (w w' : Watcher) (key : WatchKey) (ch : Chan)
    (h : handle w (.unwatch key ch) = some w')
    (hcount : (w.watchesGet key).countP (fun i => decide (i.ch = ch)) ≤ 1) :
    (∀ i ∈ w'.watchesGet key, i.ch ≠ ch) ∧
    noPending w' key ch ∧
    ∀ (st : List (Option Req)) (r : Watcher × List (Chan × Change)),
      (∀ x ∈ st, ∀ q, x = some q → noReattach q key ch) →
      flush w' st = some r →
      ∀ p ∈ r.2, ¬(p.1 = ch ∧ p.2.C = key.c ∧ p.2.Id = key.id) := by
  have hnp : noPending w' key ch := by
    simp only [handle] at h
    obtain rfl := Option.some.inj h
    exact ⟨tombstone_silent _ _ _, tombstone_silent _ _ _⟩
  refine ⟨?_, hnp, fun st r hst hflush => flush_good key ch w' st r hflush hst hnp⟩
  simp only [handle] at h
  obtain rfl := Option.some.inj h
  intro i hi
  by_cases hb : ((w.watchesGet key).any fun j => j.ch = ch) = true
  · rw [Watcher.watchesGet] at hi
    simp only [if_pos hb] at hi
    rw [alistGet?_set_self] at hi
    simp only [Option.getD_some] at hi
    exact removeWatch_no_ch ch _ hcount i hi
  · have hfalse : ∀ j ∈ w.watchesGet key, j.ch ≠ ch := by
      have hb' : ((w.watchesGet key).any fun j => j.ch = ch) = false := by
        revert hb
        cases (w.watchesGet key).any fun j => j.ch = ch
        · intro _; rfl
        · intro hb; exact absurd rfl hb
      intro j hj
      have := List.any_eq_false.mp hb' j hj
      simpa using this
    rw [Watcher.watchesGet] at hi
    simp only [if_neg hb] at hi
    exact hfalse i hi

/-- The state of the C6 witness before the unwatch: two subscribers of
document 1 of collection `a`, one live pending event in each queue. -/
def preUnwatchW : Watcher :=
  { newWatcher with
    watches := [(⟨"a", some 1⟩, [⟨1, 0⟩, ⟨2, 0⟩])],
    syncEvents := [⟨some 1, ⟨"a", some 1⟩, 3⟩],
    requestEvents := [⟨some 1, ⟨"a", some 1⟩, 2⟩] }

/-- The state of the C6 witness after unwatching channel 1. -/
def postUnwatchW : Watcher :=
  { newWatcher with
    watches := [(⟨"a", some 1⟩, [⟨2, 0⟩])],
    syncEvents := [⟨none, ⟨"a", some 1⟩, 3⟩],
    requestEvents := [⟨none, ⟨"a", some 1⟩, 2⟩] }

/-- Witness for C6 at a concrete input. -/
theorem watcher_C6_witness :
    (∀ i ∈ postUnwatchW.watchesGet ⟨"a", some 1⟩, i.ch ≠ 1) ∧
    noPending postUnwatchW ⟨"a", some 1⟩ 1 ∧
    ∀ (st : List (Option Req)) (r : Watcher × List (Chan × Change)),
      (∀ x ∈ st, ∀ q, x = some q → noReattach q ⟨"a", some 1⟩ 1) →
      flush postUnwatchW st = some r →
      ∀ p ∈ r.2, ¬(p.1 = 1 ∧ p.2.C = "a" ∧ p.2.Id = some 1) :=
  watcher_C6_unwatch_silences preUnwatchW postUnwatchW ⟨"a", some 1⟩ 1 (by decide) (by decide)

end StateWatcher

namespace StateWatcher

/-- Every key in the revision registry carries a document id. -/
def registryPerDoc (w : Watcher) : Prop := ∀ p ∈ w.current, p.1.id ≠ none

theorem alistGet?_mem {α β : Type} [DecidableEq α] (m : List (α × β)) (k : α) (v : β)
    (h : alistGet? m k = some v) : (k, v) ∈ m := by
  induction m with
  | nil => simp [alistGet?] at h
  | cons p rest ih =>
    obtain ⟨a, b⟩ := p
    by_cases ha : a = k
    · subst ha
      simp only [alistGet?, eq_self_iff_true, if_true, Option.some.injEq] at h
      subst h
      exact List.mem_cons_self _ _
    · simp only [alistGet?, if_neg ha] at h
      exact List.mem_cons_of_mem _ (ih h)

theorem registry_none_coll (w : Watcher) (hw : registryPerDoc w) (c : String) :
    alistGet? w.current ⟨c, none⟩ = none := by
  rcases hx : alistGet? w.current ⟨c, none⟩ with _ | v
  · rfl
  · have hmem := alistGet?_mem _ _ _ hx
    have := hw _ hmem
    simp at this

theorem handle_current (w w' : Watcher) (r : Req) (h : handle w r = some w') :
    w'.current = w.current := by
  cases r with
  | watch k i =>
    by_cases hb : ((w.watchesGet k).any fun j => j.ch = i.ch) = true
    · simp [handle, hb] at h
    · simp only [handle] at h
      rw [if_neg hb] at h
      obtain rfl := Option.some.inj h
      rfl
  | unwatch k c =>
    simp only [handle] at h
    obtain rfl := Option.some.inj h
    rfl

theorem deliver_current (get : Watcher → Event) :
    ∀ (st : List (Option Req)) (w w' : Watcher) (st' : List (Option Req))
      (sent : List (Chan × Change)),
      deliver w get st = some (w', st', sent) → w'.current = w.current := by
  intro st
  induction st with
  | nil =>
    intro w w' st' sent h
    simp only [deliver, Option.some.injEq, Prod.mk.injEq] at h
    obtain ⟨h1, _, _⟩ := h
    rw [← h1]
  | cons x rs ih =>
    intro w w' st' sent h
    cases x with
    | none =>
      rcases hch : (get w).ch with _ | c <;>
        simp only [deliver, hch, Option.some.injEq, Prod.mk.injEq] at h <;>
        obtain ⟨h1, _, _⟩ := h <;> rw [← h1]
    | some r =>
      rcases hch : (get w).ch with _ | c
      · simp only [deliver, hch, Option.some.injEq, Prod.mk.injEq] at h
        obtain ⟨h1, _, _⟩ := h
        rw [← h1]
      · simp only [deliver, hch] at h
        rw [Option.bind_eq_some] at h
        obtain ⟨w1, hw1, hdel⟩ := h
        rw [ih w1 w' st' sent hdel, handle_current w w1 r hw1]

theorem flushSyncs_current :
    ∀ (idxs : List Nat) (st : List (Option Req)) (w w' : Watcher) (st' : List (Option Req))
      (sent sent' : List (Chan × Change)),
      flushSyncs w st sent idxs = some (w', st', sent') → w'.current = w.current := by
  intro idxs
  induction idxs with
  | nil =>
    intro st w w' st' sent sent' h
    simp only [flushSyncs, Option.some.injEq, Prod.mk.injEq] at h
    obtain ⟨h1, _, _⟩ := h
    rw [← h1]
  | cons i is ih =>
    intro st w w' st' sent sent' h
    simp only [flushSyncs] at h
    rw [Option.bind_eq_some] at h
    obtain ⟨p, hdel, hrest⟩ := h
    obtain ⟨w1, st1, sent1⟩ := p
    rw [ih st1 w1 w' st' (sent ++ sent1) sent' hrest,
      deliver_current _ st w w1 st1 sent1 hdel]

theorem flushReqs_current :
    ∀ (fuel : Nat) (st : List (Option Req)) (w w' : Watcher) (i : Nat)
      (st' : List (Option Req)) (sent sent' : List (Chan × Change)),
      flushReqs fuel w st i sent = some (w', st', sent') → w'.current = w.current := by
  intro fuel
  induction fuel with
  | zero =>
    intro st w w' i st' sent sent' h
    simp only [flushReqs] at h
    by_cases hi : i < w.requestEvents.length
    · rw [if_pos hi] at h
      simp at h
    · rw [if_neg hi] at h
      simp only [Option.some.injEq, Prod.mk.injEq] at h
      obtain ⟨h1, _, _⟩ := h
      rw [← h1]
  | succ fuel ih =>
    intro st w w' i st' sent sent' h
    simp only [flushReqs] at h
    by_cases hi : i < w.requestEvents.length
    · rw [if_pos hi] at h
      rw [Option.bind_eq_some] at h
      obtain ⟨p, hdel, hrest⟩ := h
      obtain ⟨w1, st1, sent1⟩ := p
      rw [ih st1 w1 w' (i + 1) st' (sent ++ sent1) sent' hrest,
        deliver_current _ st w w1 st1 sent1 hdel]
    · rw [if_neg hi] at h
      simp only [Option.some.injEq, Prod.mk.injEq] at h
      obtain ⟨h1, _, _⟩ := h
      rw [← h1]

theorem flush_current (w : Watcher) (st : List (Option Req))
    (r : Watcher × List (Chan × Change)) (h : flush w st = some r) :
    r.1.current = w.current := by
  unfold flush at h
  rw [Option.bind_eq_some] at h
  obtain ⟨p, hp, h⟩ := h
  obtain ⟨w1, st1, sent1⟩ := p
  rw [Option.bind_eq_some] at h
  obtain ⟨q, hq, h⟩ := h
  obtain ⟨w2, st2, sent2⟩ := q
  cases h
  have h1 := flushSyncs_current _ st w w1 st1 [] sent1 hp
  have h2 := flushReqs_current _ st1 w1 w2 0 st2 sent1 sent2 hq
  rw [show ({ w2 with syncEvents := [], requestEvents := [] } : Watcher).current =
    w2.current from rfl, h2, h1]

theorem processTriple_perDoc (w : Watcher) (seen : List WatchKey) (c : String) (d : Int)
    (rv : RVal) (hw : registryPerDoc w) :
    registryPerDoc (processTriple w seen c d rv).1 := by
  by_cases hseen : (⟨c, some d⟩ : WatchKey) ∈ seen
  · rw [processTriple_seen w seen c d rv hseen]
    exact hw
  · cases rv with
    | other =>
      rw [processTriple_other w seen c d hseen]
      exact hw
    | int64 n =>
      simp only [processTriple, if_neg hseen]
      by_cases heq : w.currentRead ⟨c, some d⟩ = if n < 0 then (-1 : Int) else n
      · rw [if_pos heq]
        exact hw
      · rw [if_neg heq]
        intro p hp
        rcases mem_alistSet w.current ⟨c, some d⟩ _ p hp with h1 | h1
        · exact hw p h1
        · subst h1
          simp

theorem triples_foldl_perDoc (c : String) :
    ∀ (trs : List (Int × RVal)) (w : Watcher) (seen : List WatchKey),
      registryPerDoc w →
      registryPerDoc
        (trs.foldl (fun q dr => processTriple q.1 q.2 c dr.1 dr.2) (w, seen)).1 := by
  intro trs
  induction trs with
  | nil => intro w seen hw; exact hw
  | cons t ts ih =>
    intro w seen hw
    rw [List.foldl_cons]
    have h1 := processTriple_perDoc w seen c t.1 t.2 hw
    have h2 := ih (processTriple w seen c t.1 t.2).1 (processTriple w seen c t.1 t.2).2 h1
    simpa using h2

theorem processField_perDoc (w : Watcher) (seen : List WatchKey) (f : EntryField)
    (hw : registryPerDoc w) : registryPerDoc (processField w seen f).1 := by
  simp only [processField]
  by_cases hlen : (extractDR f.val).1.length = 0 ∨
      (extractDR f.val).1.length ≠ (extractDR f.val).2.length
  · rw [if_pos hlen]
    exact hw
  · rw [if_neg hlen]
    exact triples_foldl_perDoc f.name _ w seen hw

theorem processFields_perDoc :
    ∀ (fs : List EntryField) (w : Watcher) (seen : List WatchKey),
      registryPerDoc w → registryPerDoc (processFields w seen fs).1 := by
  intro fs
  induction fs with
  | nil => intro w seen hw; exact hw
  | cons f fs ih =>
    intro w seen hw
    simp only [processFields]
    exact ih _ _ (processField_perDoc w seen f hw)

theorem syncLoop_perDoc :
    ∀ (entries : List LogEntry) (w w' : Watcher) (seen : List WatchKey) (first : Bool)
      (lastId : Option FieldVal),
      registryPerDoc w → syncLoop w seen first lastId entries = some w' →
      registryPerDoc w' := by
  intro entries
  induction entries with
  | nil =>
    intro w w' seen first lastId hw h
    obtain rfl := Option.some.inj h
    exact hw
  | cons entry rest ih =>
    intro w w' seen first lastId hw h
    cases entry with
    | nil =>
      rw [show syncLoop w seen first lastId ([] :: rest) =
        syncLoop w seen first lastId rest from rfl] at h
      exact ih w w' seen first lastId hw h
    | cons idf cs =>
      simp only [syncLoop] at h
      by_cases hname : idf.name ≠ "_id"
      · rw [if_pos hname] at h
        exact Option.noConfusion h
      · rw [if_neg hname] at h
        have hw1 : registryPerDoc (if first then { w with lastId := some idf.val } else w) := by
          by_cases hf : first
          · rw [if_pos hf]
            exact hw
          · rw [if_neg hf]
            exact hw
        by_cases hid : some idf.val = lastId
        · rw [if_pos hid] at h
          obtain rfl := Option.some.inj h
          exact hw1
        · rw [if_neg hid] at h
          exact ih _ _ _ _ _ (processFields_perDoc cs _ _ hw1) h

theorem sync_perDoc (w w' : Watcher) (entries : List LogEntry)
    (hw : registryPerDoc w) (h : sync w entries = some w') : registryPerDoc w' :=
  syncLoop_perDoc entries w w' [] true w.lastId hw h

/-- C9: the revision registry only ever holds per-document keys: the new
watcher starts with an empty registry, request handling never writes the
registry (nor does a flush), and sync writes only keys that carry a
document id; consequently a WatchCollection attach, whose key has no
document id and whose declared revno is 0, never finds its key in the
registry and never enqueues a catch-up request-event. -/
theorem watcher_C9_registry_per_doc :
    registryPerDoc newWatcher ∧
    (∀ (w w' : Watcher) (r : Req), handle w r = some w' → w'.current = w.current) ∧
    (∀ (w w' : Watcher) (entries : List LogEntry),
      registryPerDoc w → sync w entries = some w' → registryPerDoc w') ∧
    (∀ (w : Watcher) (st : List (Option Req)) (r : Watcher × List (Chan × Change)),
      flush w st = some r → r.1.current = w.current) ∧
    (∀ (w w' : Watcher) (c : String) (ch : Chan),
      registryPerDoc w → handle w (WatchCollection c ch) = some w' →
      w'.requestEvents = w.requestEvents) := by
  refine ⟨?_, ?_, ?_, ?_, ?_⟩
  · intro p hp
    simp [newWatcher] at hp
  · intro w w' r h
    exact handle_current w w' r h
  · intro w w' entries hw h
    exact sync_perDoc w w' entries hw h
  · intro w st r h
    exact flush_current w st r h
  · intro w w' c ch hw h
    have hc := registry_none_coll w hw c
    simp only [WatchCollection, handle] at h
    split at h
    · exact Option.noConfusion h
    · simp only [hc] at h
      obtain rfl := Option.some.inj h
      rfl

/-- Witness for C9's catch-up clause at a concrete input: attaching a
collection watcher over a registry holding only per-document keys leaves
the request-event queue unchanged. -/
theorem watcher_C9_witness :
    ({ regUsers7 with watches := [(⟨"users", none⟩, [⟨9, 0⟩])] } : Watcher).requestEvents =
      regUsers7.requestEvents :=
  watcher_C9_registry_per_doc.2.2.2.2 regUsers7
    { regUsers7 with watches := [(⟨"users", none⟩, [⟨9, 0⟩])] } "users" 9
    (by decide : ∀ p ∈ regUsers7.current, p.1.id ≠ none) (by decide)

end StateWatcher
